import Mathlib

/-!
Shallow embedding of the Hyperledger Fabric asset-management chaincode
(package `chaincode`: a `SmartContract` managing `Asset` records in the
key-value world state via the transaction stub).

Modelling choices:
* A serialized record (the bytes `json.Marshal` produces) is abstracted as
  the ordered list of JSON object members it denotes; `encoding/json`
  renders such a member list to bytes deterministically, so byte-identity
  of two serializations coincides with equality of the member lists.
* Go `float64` fields are modelled as exact rationals (`Rat`); none of the
  chaincode performs arithmetic on them, they are only carried and encoded.
* The world state is an association list from keys to serialized values;
  `GetState` returns the value at the key or `none` when absent, exactly
  the `bytes|absent` store contract the chaincode consumes.
* The transaction stub (`FStub`) carries the world state together with a
  per-key injected store-level fault for each primitive (`none` = the
  primitive succeeds), so that the error paths of the chaincode are
  first-class.  `pureStub` is the fault-free stub.
* Each chaincode function mirrors the Go source line by line: mutating
  functions return Go-style `(error, resulting stub)` pairs where
  `none` means success, `TransferAsset` returns its Go pair
  `(string, error)` together with the resulting stub.
-/

namespace AssetChaincode

/-- JSON values occurring in this chaincode's records: strings and numbers.
Numbers model Go `float64` values as exact rationals. -/
inductive JValue where
  | str : String → JValue
  | num : Rat → JValue
deriving DecidableEq, Repr

/-- A serialized record: the JSON object (ordered member list) whose
deterministic rendering is the byte string `json.Marshal` produces. -/
abbrev Bytes := List (String × JValue)

/-- The world state: an association list from keys to serialized values. -/
abbrev Store := List (String × Bytes)

/-- The `Asset` struct, fields in the source's declaration order
(alphabetical by Go field name, per the source comment). -/
structure Asset where
  BALANCE : Rat
  DEALERID : String
  ID : String
  MPIN : String
  MSISDN : String
  REMARKS : String
  STATUS : String
  TRANSAMOUNT : Rat
  TRANSTYPE : String
deriving DecidableEq, Repr

/-- `json.Marshal` of an `Asset`: emits the struct fields in declaration
order, each under its `json:"..."` tag. -/
def marshalAsset (a : Asset) : Bytes :=
  [("balance", .num a.BALANCE),
   ("dealerid", .str a.DEALERID),
   ("ID", .str a.ID),
   ("mpin", .str a.MPIN),
   ("msisdn", .str a.MSISDN),
   ("remarks", .str a.REMARKS),
   ("status", .str a.STATUS),
   ("transamount", .num a.TRANSAMOUNT),
   ("transtype", .str a.TRANSTYPE)]

/-- Member lookup as `json.Unmarshal` resolves it: the last occurrence of
the key wins; `none` when the object has no such member. -/
def jLookup (b : Bytes) (k : String) : Option JValue :=
  b.foldl (fun acc p => if p.1 == k then some p.2 else acc) none

/-- Decode a string-typed struct field: a missing member leaves the zero
value `""`; a number in its place is a type error. -/
def jStr (b : Bytes) (k : String) : Except String String :=
  match jLookup b k with
  | none => .ok ""
  | some (.str s) => .ok s
  | some (.num _) =>
      .error ("json: cannot unmarshal number into Go struct field Asset."
        ++ k ++ " of type string")

/-- Decode a float64-typed struct field: a missing member leaves the zero
value `0`; a string in its place is a type error. -/
def jNum (b : Bytes) (k : String) : Except String Rat :=
  match jLookup b k with
  | none => .ok 0
  | some (.num q) => .ok q
  | some (.str _) =>
      .error ("json: cannot unmarshal string into Go struct field Asset."
        ++ k ++ " of type float64")

/-- `json.Unmarshal` of bytes into an `Asset`. -/
def unmarshalAsset (b : Bytes) : Except String Asset := do
  let balance ← jNum b "balance"
  let dealerid ← jStr b "dealerid"
  let id ← jStr b "ID"
  let mpin ← jStr b "mpin"
  let msisdn ← jStr b "msisdn"
  let remarks ← jStr b "remarks"
  let status ← jStr b "status"
  let transamount ← jNum b "transamount"
  let transtype ← jStr b "transtype"
  return ⟨balance, dealerid, id, mpin, msisdn, remarks, status, transamount, transtype⟩

/-- Point lookup in the world state: the first entry holding the key. -/
def getState : Store → String → Option Bytes
  | [], _ => none
  | p :: rest, k => if p.1 == k then some p.2 else getState rest k

/-- Upsert into the world state: replace in place every entry holding the
key, or append when the key is absent. -/
def putState : Store → String → Bytes → Store
  | [], k, v => [(k, v)]
  | p :: rest, k, v =>
      if p.1 == k then (k, v) :: rest else p :: putState rest k v

/-- Remove every entry holding the key from the world state. -/
def delState (st : Store) (k : String) : Store :=
  st.filter (fun p => !(p.1 == k))

/-- A transaction stub: the world state plus, for each primitive and key, an
injected store-level fault (`none` = that primitive succeeds at that key). -/
structure FStub where
  store : Store
  getErr : String → Option String
  putErr : String → Option String
  delErr : String → Option String

/-- A stub over the given world state whose primitives never fault. -/
def pureStub (st : Store) : FStub :=
  ⟨st, fun _ => none, fun _ => none, fun _ => none⟩

/-- Stub `GetState`: a store-level fault, or the value at the key
(`none` = key absent, which is not an error). -/
def FStub.GetState (s : FStub) (k : String) : Except String (Option Bytes) :=
  match s.getErr k with
  | some e => .error e
  | none => .ok (getState s.store k)

/-- Stub `PutState`: Go-style `(error, resulting stub)`; a fault leaves the
state untouched. -/
def FStub.PutState (s : FStub) (k : String) (v : Bytes) : Option String × FStub :=
  match s.putErr k with
  | some e => (some e, s)
  | none => (none, { s with store := putState s.store k v })

/-- Stub `DelState`: Go-style `(error, resulting stub)`; a fault leaves the
state untouched. -/
def FStub.DelState (s : FStub) (k : String) : Option String × FStub :=
  match s.delErr k with
  | some e => (some e, s)
  | none => (none, { s with store := delState s.store k })

/-- `AssetExists` returns true when an asset with the given ID exists in the
world state (`assetJSON != nil`); only a `GetState` fault is an error. -/
def AssetExists (s : FStub) (id : String) : Except String Bool :=
  match s.GetState id with
  | .error e => .error ("failed to read from world state: " ++ e)
  | .ok v => .ok v.isSome

/-- `CreateAsset` issues a new asset to the world state with given details. -/
def CreateAsset (s : FStub) (id dealerID msisdn mpin : String) (balance : Rat)
    (status : String) (transAmount : Rat) (transType remarks : String) :
    Option String × FStub :=
  match AssetExists s id with
  | .error e => (some e, s)
  | .ok true => (some ("the asset " ++ id ++ " already exists"), s)
  | .ok false =>
      s.PutState id (marshalAsset
        ⟨balance, dealerID, id, mpin, msisdn, remarks, status, transAmount, transType⟩)

/-- `ReadAsset` returns the asset stored in the world state with given id. -/
def ReadAsset (s : FStub) (id : String) : Except String Asset :=
  match s.GetState id with
  | .error e => .error ("failed to read from world state: " ++ e)
  | .ok none => .error ("the asset " ++ id ++ " does not exist")
  | .ok (some b) => unmarshalAsset b

/-- `UpdateAsset` updates an existing asset in the world state with the
provided parameters (full replace). -/
def UpdateAsset (s : FStub) (id dealerID msisdn mpin : String) (balance : Rat)
    (status : String) (transAmount : Rat) (transType remarks : String) :
    Option String × FStub :=
  match AssetExists s id with
  | .error e => (some e, s)
  | .ok false => (some ("the asset " ++ id ++ " does not exist"), s)
  | .ok true =>
      s.PutState id (marshalAsset
        ⟨balance, dealerID, id, mpin, msisdn, remarks, status, transAmount, transType⟩)

/-- `DeleteAsset` deletes a given asset from the world state. -/
def DeleteAsset (s : FStub) (id : String) : Option String × FStub :=
  match AssetExists s id with
  | .error e => (some e, s)
  | .ok false => (some ("the asset " ++ id ++ " does not exist"), s)
  | .ok true => s.DelState id

/-- `TransferAsset` updates the DEALERID field of the asset with the given
id; returns the Go pair `(old dealer id, error)` and the resulting stub. -/
def TransferAsset (s : FStub) (id newDealerID : String) :
    (String × Option String) × FStub :=
  match ReadAsset s id with
  | .error e => (("", some e), s)
  | .ok asset =>
      let oldDealerID := asset.DEALERID
      let asset' := { asset with DEALERID := newDealerID }
      match s.PutState id (marshalAsset asset') with
      | (some e, s') => (("", some e), s')
      | (none, s') => ((oldDealerID, none), s')

/-- The fixed starter set `InitLedger` writes, exactly as in the source. -/
def initAssets : List Asset :=
  [⟨100000, "DEALER101", "asset1", "1598", "9877890123",
      "Personal loan disbursement", "ACTIVE", 100000, "CREDIT"⟩,
   ⟨500, "DEALER102", "asset2", "4321", "9811234567",
      "New account creation", "ACTIVE", 500, "INIT"⟩,
   ⟨1500, "DEALER103", "asset3", "9012", "9876543212",
      "Purchase transaction", "ACTIVE", 200, "DEBIT"⟩,
   ⟨25000, "DEALER104", "asset4", "8765", "9822345678",
      "Business investment deposit", "ACTIVE", 25000, "CREDIT"⟩,
   ⟨0, "DEALER105", "asset5", "1357", "9844567890",
      "Account dormant - no activity for 6 months", "INACTIVE", 0, "SUSPEND"⟩,
   ⟨12000, "DEALER106", "asset6", "3579", "9866789012",
      "Electricity bill payment", "ACTIVE", 3000, "DEBIT"⟩,
   ⟨100000, "DEALER107", "asset7", "1598", "9877890123",
      "Personal loan disbursement", "ACTIVE", 100000, "CREDIT"⟩]

/-- The `InitLedger` loop: marshal each asset and put it under its own ID,
stopping at the first error. -/
def putAssets (s : FStub) : List Asset → Option String × FStub
  | [] => (none, s)
  | a :: rest =>
      match s.PutState a.ID (marshalAsset a) with
      | (some e, s') => (some ("failed to put to world state: " ++ e), s')
      | (none, s') => putAssets s' rest

/-- `InitLedger` adds the base set of assets to the ledger. -/
def InitLedger (s : FStub) : Option String × FStub :=
  putAssets s initAssets

/-- Insert one entry into a key-sorted entry list, preserving sortedness. -/
def insertEntry (p : String × Bytes) : List (String × Bytes) → List (String × Bytes)
  | [] => [p]
  | q :: rest => if p.1 < q.1 then p :: q :: rest else q :: insertEntry p rest

/-- The range scan `GetStateByRange("", "")`: all entries of the world
state in key order. -/
def rangeAll : Store → List (String × Bytes)
  | [] => []
  | p :: rest => insertEntry p (rangeAll rest)

/-- The `GetAllAssets` iteration loop: unmarshal each scanned value in
order, appending to the result; any decode error aborts the whole call. -/
def collectAssets : List (String × Bytes) → Except String (List Asset)
  | [] => .ok []
  | p :: rest =>
      match unmarshalAsset p.2 with
      | .error e => .error e
      | .ok a =>
          match collectAssets rest with
          | .error e => .error e
          | .ok as => .ok (a :: as)

/-- `GetAllAssets` returns all assets found in the world state: iterate the
full-range scan, unmarshalling each value. -/
def GetAllAssets (s : FStub) : Except String (List Asset) :=
  collectAssets (rangeAll s.store)

/-- One argument tuple for `CreateAsset`/`UpdateAsset`, in the Go
parameter order. -/
structure CArgs where
  id : String
  dealerID : String
  msisdn : String
  mpin : String
  balance : Rat
  status : String
  transAmount : Rat
  transType : String
  remarks : String
deriving DecidableEq, Repr

/-- The record `CreateAsset`/`UpdateAsset` builds from an argument tuple. -/
def CArgs.toAsset (c : CArgs) : Asset :=
  ⟨c.balance, c.dealerID, c.id, c.mpin, c.msisdn, c.remarks, c.status,
    c.transAmount, c.transType⟩

/-- A sequence of `CreateAsset` invocations, stopping at the first error. -/
def createAll (s : FStub) : List CArgs → Option String × FStub
  | [] => (none, s)
  | c :: rest =>
      match CreateAsset s c.id c.dealerID c.msisdn c.mpin c.balance c.status
          c.transAmount c.transType c.remarks with
      | (some e, s') => (some e, s')
      | (none, s') => createAll s' rest

/-- The store entry a successful `CreateAsset` writes for a given argument
tuple. -/
def entryOf (c : CArgs) : String × Bytes :=
  (c.id, marshalAsset c.toAsset)

/-- Decode oracle for store entries known to hold marshalled assets. -/
def decodeEntry (p : String × Bytes) : Asset :=
  match unmarshalAsset p.2 with
  | .ok a => a
  | .error _ => ⟨0, "", "", "", "", "", "", 0, ""⟩

/-- The store transformer of the `InitLedger`-style put loop. -/
def foldPut (l : List Asset) (st : Store) : Store :=
  l.foldl (fun st a => putState st a.ID (marshalAsset a)) st

/-- A key is held by some entry of the store. -/
def HasKey (st : Store) (k : String) : Prop :=
  ∃ p ∈ st, p.1 = k

/-- Every stored value is the serialization of an asset whose `ID` field
equals the key it is stored under. -/
def WellKeyed (st : Store) : Prop :=
  ∀ p ∈ st, ∃ a : Asset, p.2 = marshalAsset a ∧ a.ID = p.1

/-- World states reachable from the empty store by the chaincode's mutating
operations over a fault-free stub, with arbitrary arguments. -/
inductive Reach : Store → Prop where
  | empty : Reach []
  | init : ∀ {st : Store}, Reach st →
      Reach (InitLedger (pureStub st)).2.store
  | create : ∀ {st : Store} (id dealerID msisdn mpin : String) (balance : Rat)
      (status : String) (transAmount : Rat) (transType remarks : String), Reach st →
      Reach (CreateAsset (pureStub st) id dealerID msisdn mpin balance status
        transAmount transType remarks).2.store
  | update : ∀ {st : Store} (id dealerID msisdn mpin : String) (balance : Rat)
      (status : String) (transAmount : Rat) (transType remarks : String), Reach st →
      Reach (UpdateAsset (pureStub st) id dealerID msisdn mpin balance status
        transAmount transType remarks).2.store
  | del : ∀ {st : Store} (id : String), Reach st →
      Reach (DeleteAsset (pureStub st) id).2.store
  | transfer : ∀ {st : Store} (id newDealerID : String), Reach st →
      Reach (TransferAsset (pureStub st) id newDealerID).2.store

/-- A sample asset used by the concrete witnesses. -/
def a0 : Asset :=
  ⟨10, "DEALER1", "a", "0000", "9990001111", "first", "ACTIVE", 5, "CREDIT"⟩

/-- A stub whose `GetState` always faults. -/
def getFaultStub : FStub :=
  ⟨[], fun _ => some "boom", fun _ => none, fun _ => none⟩

/-- A stub holding `a0` whose `PutState` always faults. -/
def putFaultStub : FStub :=
  ⟨[("a", marshalAsset a0)], fun _ => none, fun _ => some "disk full", fun _ => none⟩

/-- Sample create arguments used by the concrete witnesses. -/
def c1 : CArgs := ⟨"a1", "DEALER1", "111", "1111", 7, "ACTIVE", 3, "CREDIT", "one"⟩

/-- A second sample of create arguments with a distinct id. -/
def c2 : CArgs := ⟨"a2", "DEALER2", "222", "2222", 9, "ACTIVE", 4, "DEBIT", "two"⟩

/-- Round trip: `json.Unmarshal` of `json.Marshal` of an asset recovers the
asset exactly. -/
theorem unmarshal_marshal (a : Asset) : unmarshalAsset (marshalAsset a) = .ok a := by
  rfl

theorem getState_putState_self (st : Store) (k : String) (v : Bytes) :
    getState (putState st k v) k = some v := by
  induction st with
  | nil => simp [putState, getState]
  | cons q rest ih =>
      by_cases hq : q.1 = k
      · simp [putState, getState, hq]
      · simp [putState, getState, hq, ih]

theorem getState_putState_other {k k' : String} (st : Store) (v : Bytes)
    (h : k' ≠ k) : getState (putState st k v) k' = getState st k' := by
  induction st with
  | nil => simp [putState, getState, Ne.symm h]
  | cons q rest ih =>
      by_cases hq : q.1 = k
      · simp [putState, getState, hq, Ne.symm h, ih]
      · by_cases hq' : q.1 = k'
        · simp [putState, getState, hq, hq', h]
        · simp [putState, getState, hq, hq', ih]

theorem putState_absent {st : Store} {k : String} (v : Bytes)
    (h : getState st k = none) : putState st k v = st ++ [(k, v)] := by
  induction st with
  | nil => simp [putState]
  | cons q rest ih =>
      by_cases hq : q.1 = k
      · simp [getState, hq] at h
      · simp only [getState, hq] at h
        simp only [beq_iff_eq, if_neg hq] at h
        simp [putState, hq, ih h]

theorem getState_mem {st : Store} {k : String} {b : Bytes}
    (h : getState st k = some b) : (k, b) ∈ st := by
  induction st with
  | nil => simp [getState] at h
  | cons q rest ih =>
      by_cases hq : q.1 = k
      · simp only [getState, beq_iff_eq, if_pos hq, Option.some.injEq] at h
        have : q = (k, b) := by
          rcases q with ⟨q1, q2⟩
          simp only at hq h
          simp [hq, h]
        simp [this]
      · simp only [getState, beq_iff_eq, if_neg hq] at h
        exact List.mem_cons_of_mem _ (ih h)

theorem mem_putState {st : Store} {k : String} {v : Bytes} {p : String × Bytes}
    (h : p ∈ putState st k v) : p = (k, v) ∨ p ∈ st := by
  induction st with
  | nil =>
      simp [putState] at h
      exact Or.inl h
  | cons q rest ih =>
      by_cases hq : q.1 = k
      · simp only [putState, beq_iff_eq, if_pos hq, List.mem_cons] at h
        rcases h with h | h
        · exact Or.inl h
        · exact Or.inr (List.mem_cons_of_mem _ h)
      · simp only [putState, beq_iff_eq, if_neg hq, List.mem_cons] at h
        rcases h with h | h
        · exact Or.inr (by simp [h])
        · rcases ih h with h' | h'
          · exact Or.inl h'
          · exact Or.inr (List.mem_cons_of_mem _ h')

theorem putState_self {st : Store} {k : String} {v : Bytes}
    (h : getState st k = some v) : putState st k v = st := by
  induction st with
  | nil => simp [getState] at h
  | cons q rest ih =>
      by_cases hq : q.1 = k
      · simp only [getState, beq_iff_eq, if_pos hq, Option.some.injEq] at h
        rcases q with ⟨q1, q2⟩
        simp only at hq h
        simp [putState, hq, h]
      · simp only [getState, beq_iff_eq, if_neg hq] at h
        simp [putState, hq, ih h]

theorem foldPut_cons (a : Asset) (l : List Asset) (st : Store) :
    foldPut (a :: l) st = foldPut l (putState st a.ID (marshalAsset a)) := rfl

theorem foldPut_getState_other {l : List Asset} {k : String}
    (hk : ∀ a ∈ l, a.ID ≠ k) (st : Store) :
    getState (foldPut l st) k = getState st k := by
  induction l generalizing st with
  | nil => rfl
  | cons a rest ih =>
      rw [foldPut_cons, ih (fun b hb => hk b (List.mem_cons_of_mem _ hb)),
        getState_putState_other _ _ (hk a (List.mem_cons_self _ _)).symm]

theorem foldPut_getState_mem {l : List Asset} (hnd : (l.map Asset.ID).Nodup)
    {a : Asset} (ha : a ∈ l) (st : Store) :
    getState (foldPut l st) a.ID = some (marshalAsset a) := by
  induction l generalizing st with
  | nil => simp at ha
  | cons b rest ih =>
      simp only [List.map_cons, List.nodup_cons] at hnd
      rcases List.mem_cons.mp ha with h | h
      · subst h
        have hmem : ∀ c ∈ rest, c.ID ≠ a.ID := by
          intro c hc he
          exact hnd.1 (he ▸ List.mem_map_of_mem Asset.ID hc)
        rw [foldPut_cons, foldPut_getState_other hmem, getState_putState_self]
      · rw [foldPut_cons]
        exact ih hnd.2 h _

theorem foldPut_idem {l : List Asset} (hnd : (l.map Asset.ID).Nodup) (st : Store) :
    foldPut l (foldPut l st) = foldPut l st := by
  induction l generalizing st with
  | nil => rfl
  | cons a rest ih =>
      simp only [List.map_cons, List.nodup_cons] at hnd
      have hmem : ∀ c ∈ rest, c.ID ≠ a.ID := by
        intro c hc he
        exact hnd.1 (he ▸ List.mem_map_of_mem Asset.ID hc)
      rw [foldPut_cons, foldPut_cons,
        putState_self (by rw [foldPut_getState_other hmem, getState_putState_self]),
        ih hnd.2]

theorem putAssets_pure (l : List Asset) (st : Store) :
    putAssets (pureStub st) l = (none, pureStub (foldPut l st)) := by
  induction l generalizing st with
  | nil => rfl
  | cons a rest ih => exact ih (putState st a.ID (marshalAsset a))

/-- C1 (counterexample): on a concrete record, the serialized object keys
are not the list the claim gives (`dealerId`, `id`, `pin`,
`transactionAmount`, `transactionType` are not the source's JSON tags). -/
theorem C1_counterexample_keys :
    (marshalAsset a0).map Prod.fst ≠
      ["balance", "dealerId", "id", "pin", "msisdn", "remarks", "status",
       "transactionAmount", "transactionType"] := by
  decide

/-- C1 (amended): serialization of an `Asset` emits the object keys in the
fixed order `balance, dealerid, ID, mpin, msisdn, remarks, status,
transamount, transtype` — the struct's declaration order (alphabetical by
Go field name), not lexicographic order of the JSON key names (`"ID"`
would sort before `"balance"`).  The emitted key sequence is the same for
every record, and `marshalAsset` is a pure function of the record's field
values, so the serialized bytes are identical across executions. -/
theorem C1_keys_fixed_order (a : Asset) :
    (marshalAsset a).map Prod.fst =
      ["balance", "dealerid", "ID", "mpin", "msisdn", "remarks", "status",
       "transamount", "transtype"] := rfl

/-- C5: `UpdateAsset` on an id absent from the world state fails with the
does-not-exist error and returns the stub unchanged — no write happens. -/
theorem C5_update_absent_fails (s : FStub) (id dealerID msisdn mpin : String)
    (balance : Rat) (status : String) (transAmount : Rat) (transType remarks : String)
    (hg : s.getErr id = none) (habs : getState s.store id = none) :
    UpdateAsset s id dealerID msisdn mpin balance status transAmount transType remarks =
      (some ("the asset " ++ id ++ " does not exist"), s) := by
  simp [UpdateAsset, AssetExists, FStub.GetState, hg, habs]

/-- Witness for C5 at a concrete empty store. -/
theorem C5_witness :
    UpdateAsset (pureStub []) "x" "d" "m" "p" 1 "s" 2 "t" "r" =
      (some "the asset x does not exist", pureStub []) :=
  C5_update_absent_fails (pureStub []) "x" "d" "m" "p" 1 "s" 2 "t" "r" rfl rfl

/-- C6: `AssetExists` succeeds with `true` exactly when the key holds a
value and with `false` when the key is absent (absence is never an error);
it fails only when the store-level read faults.  In this model a stored
value is a JSON object, whose rendering is never the empty byte string, so
present coincides with present-and-non-empty. -/
theorem C6_exists_iff_present (s : FStub) (id : String) :
    (s.getErr id = none → AssetExists s id = .ok (getState s.store id).isSome) ∧
    (∀ e, s.getErr id = some e →
      AssetExists s id = .error ("failed to read from world state: " ++ e)) := by
  constructor
  · intro h
    simp [AssetExists, FStub.GetState, h]
  · intro e h
    simp [AssetExists, FStub.GetState, h]

/-- Witness for C6: a present key, an absent key, and a faulting store. -/
theorem C6_witness :
    AssetExists (pureStub [("a", marshalAsset a0)]) "a" = .ok true ∧
    AssetExists (pureStub []) "a" = .ok false ∧
    AssetExists getFaultStub "a" = .error "failed to read from world state: boom" :=
  ⟨(C6_exists_iff_present (pureStub [("a", marshalAsset a0)]) "a").1 rfl,
   (C6_exists_iff_present (pureStub []) "a").1 rfl,
   (C6_exists_iff_present getFaultStub "a").2 "boom" rfl⟩

/-- C10: whenever `TransferAsset` returns an error — read fault, absent
key, undecodable bytes, or write-back fault — the string it returns
alongside the error is `""`, never the prior dealer id, even when the old
record had already been read successfully. -/
theorem C10_transfer_fail_empty (s : FStub) (id newDealerID e : String)
    (h : ((TransferAsset s id newDealerID).1).2 = some e) :
    ((TransferAsset s id newDealerID).1).1 = "" := by
  unfold TransferAsset at h ⊢
  cases hr : ReadAsset s id with
  | error e' => simp [hr]
  | ok a =>
      simp only [hr] at h ⊢
      rcases hput : s.PutState id (marshalAsset { a with DEALERID := newDealerID })
        with ⟨err, s'⟩
      cases err with
      | none => simp [hput] at h
      | some e' => simp [hput]

/-- Witness for C10: the read succeeds but the write-back faults, and the
returned string is still empty. -/
theorem C10_witness :
    ((TransferAsset putFaultStub "a" "DEALER2").1).2 = some "disk full" ∧
    ((TransferAsset putFaultStub "a" "DEALER2").1).1 = "" :=
  ⟨rfl, C10_transfer_fail_empty putFaultStub "a" "DEALER2" "disk full" rfl⟩

/-- Inversion of a successful `ReadAsset`: the store-level read did not
fault, the key held a value, and that value decoded to the result. -/
theorem ReadAsset_ok_inv {s : FStub} {id : String} {a : Asset}
    (h : ReadAsset s id = .ok a) :
    s.getErr id = none ∧ ∃ b, getState s.store id = some b ∧ unmarshalAsset b = .ok a := by
  unfold ReadAsset at h
  cases hge : s.GetState id with
  | error e => rw [hge] at h; simp at h
  | ok ob =>
      rw [hge] at h
      cases ob with
      | none => simp at h
      | some b =>
          unfold FStub.GetState at hge
          cases hg : s.getErr id with
          | some e => rw [hg] at hge; simp at hge
          | none =>
              rw [hg] at hge
              simp only [Except.ok.injEq] at hge
              exact ⟨rfl, b, hge, h⟩

/-- C2: on a store where the key is absent, `CreateAsset` succeeds and an
immediately following `ReadAsset` returns the record whose nine fields are
exactly the arguments passed, with no derivation or defaulting. -/
theorem C2_create_then_read (s : FStub) (id dealerID msisdn mpin : String)
    (balance : Rat) (status : String) (transAmount : Rat) (transType remarks : String)
    (hg : s.getErr id = none) (hp : s.putErr id = none)
    (habs : getState s.store id = none) :
    ∃ s' : FStub,
      CreateAsset s id dealerID msisdn mpin balance status transAmount transType remarks =
        (none, s') ∧
      ReadAsset s' id =
        .ok ⟨balance, dealerID, id, mpin, msisdn, remarks, status, transAmount, transType⟩ := by
  refine ⟨{ s with store := putState s.store id (marshalAsset
    ⟨balance, dealerID, id, mpin, msisdn, remarks, status, transAmount, transType⟩) }, ?_, ?_⟩
  · simp [CreateAsset, AssetExists, FStub.GetState, hg, habs, FStub.PutState, hp]
  · simp [ReadAsset, FStub.GetState, hg, getState_putState_self, unmarshal_marshal]

/-- Witness for C2 on the empty store with concrete arguments. -/
theorem C2_witness :
    ∃ s' : FStub,
      CreateAsset (pureStub []) "a1" "DEALER1" "111" "1111" 7 "ACTIVE" 3 "CREDIT" "one" =
        (none, s') ∧
      ReadAsset s' "a1" =
        .ok ⟨7, "DEALER1", "a1", "1111", "111", "one", "ACTIVE", 3, "CREDIT"⟩ :=
  C2_create_then_read (pureStub []) "a1" "DEALER1" "111" "1111" 7 "ACTIVE" 3 "CREDIT" "one"
    rfl rfl rfl

/-- C3: on a store where the key holds a valid record, `TransferAsset`
returns the prior `DEALERID`, and a following `ReadAsset` shows the new
dealer id with every other field unchanged from the record read before. -/
theorem C3_transfer_updates_dealer (s : FStub) (id newDealerID : String) (a : Asset)
    (hr : ReadAsset s id = .ok a) (hp : s.putErr id = none) :
    ∃ s' : FStub,
      TransferAsset s id newDealerID = ((a.DEALERID, none), s') ∧
      ReadAsset s' id = .ok { a with DEALERID := newDealerID } := by
  obtain ⟨hg, b, hb, hu⟩ := ReadAsset_ok_inv hr
  refine ⟨{ s with store := putState s.store id (marshalAsset
    { a with DEALERID := newDealerID }) }, ?_, ?_⟩
  · simp [TransferAsset, hr, FStub.PutState, hp]
  · simp [ReadAsset, FStub.GetState, hg, getState_putState_self, unmarshal_marshal]

/-- Witness for C3 on a concrete one-record store. -/
theorem C3_witness :
    ∃ s' : FStub,
      TransferAsset (pureStub [("a", marshalAsset a0)]) "a" "DEALER9" =
        (("DEALER1", none), s') ∧
      ReadAsset s' "a" = .ok { a0 with DEALERID := "DEALER9" } :=
  C3_transfer_updates_dealer (pureStub [("a", marshalAsset a0)]) "a" "DEALER9" a0 rfl rfl

/-- C4: `CreateAsset` twice with the same id (the first on a store where the
id is absent): the second call fails with the already-exists error and
leaves the state as the first call wrote it — the stored record is the one
built from the first call's arguments. -/
theorem C4_create_twice (s : FStub) (id dealerID msisdn mpin : String)
    (balance : Rat) (status : String) (transAmount : Rat) (transType remarks : String)
    (dealerID₂ msisdn₂ mpin₂ : String) (balance₂ : Rat) (status₂ : String)
    (transAmount₂ : Rat) (transType₂ remarks₂ : String)
    (hg : s.getErr id = none) (hp : s.putErr id = none)
    (habs : getState s.store id = none) :
    ∃ s₁ : FStub,
      CreateAsset s id dealerID msisdn mpin balance status transAmount transType remarks =
        (none, s₁) ∧
      CreateAsset s₁ id dealerID₂ msisdn₂ mpin₂ balance₂ status₂ transAmount₂ transType₂ remarks₂ =
        (some ("the asset " ++ id ++ " already exists"), s₁) ∧
      getState s₁.store id =
        some (marshalAsset ⟨balance, dealerID, id, mpin, msisdn, remarks, status,
          transAmount, transType⟩) := by
  refine ⟨{ s with store := putState s.store id (marshalAsset
    ⟨balance, dealerID, id, mpin, msisdn, remarks, status, transAmount, transType⟩) }, ?_, ?_, ?_⟩
  · simp [CreateAsset, AssetExists, FStub.GetState, hg, habs, FStub.PutState, hp]
  · simp [CreateAsset, AssetExists, FStub.GetState, hg, getState_putState_self]
  · simp [getState_putState_self]

/-- Witness for C4 on the empty store with concrete argument tuples. -/
theorem C4_witness :
    ∃ s₁ : FStub,
      CreateAsset (pureStub []) "a1" "DEALER1" "111" "1111" 7 "ACTIVE" 3 "CREDIT" "one" =
        (none, s₁) ∧
      CreateAsset s₁ "a1" "DEALER2" "222" "2222" 9 "ACTIVE" 4 "DEBIT" "two" =
        (some "the asset a1 already exists", s₁) ∧
      getState s₁.store "a1" =
        some (marshalAsset ⟨7, "DEALER1", "a1", "1111", "111", "one", "ACTIVE", 3, "CREDIT"⟩) :=
  C4_create_twice (pureStub []) "a1" "DEALER1" "111" "1111" 7 "ACTIVE" 3 "CREDIT" "one"
    "DEALER2" "222" "2222" 9 "ACTIVE" 4 "DEBIT" "two" rfl rfl rfl

/-- C8: from every starting store state, `InitLedger` succeeds and
populates exactly its fixed starter set — each of the seven fixed records
is stored under its own id, every other key is untouched — and running
`InitLedger` a second time leaves the store in the same state as running
it once (each fixed record is overwritten with the same fixed value). -/
theorem C8_seed_twice (st : Store) :
    ∃ s₁ : FStub,
      InitLedger (pureStub st) = (none, s₁) ∧
      (∀ a ∈ initAssets, getState s₁.store a.ID = some (marshalAsset a)) ∧
      (∀ k : String, (∀ a ∈ initAssets, a.ID ≠ k) →
        getState s₁.store k = getState st k) ∧
      InitLedger s₁ = (none, s₁) := by
  have hnd : (initAssets.map Asset.ID).Nodup := by decide
  refine ⟨pureStub (foldPut initAssets st), putAssets_pure initAssets st, ?_, ?_, ?_⟩
  · intro a ha
    exact foldPut_getState_mem hnd ha st
  · intro k hk
    exact foldPut_getState_other hk st
  · show putAssets (pureStub (foldPut initAssets st)) initAssets = _
    rw [putAssets_pure, foldPut_idem hnd]

theorem wellKeyed_putState {st : Store} (hw : WellKeyed st) {k : String} {a : Asset}
    (ha : a.ID = k) : WellKeyed (putState st k (marshalAsset a)) := by
  intro p hp
  rcases mem_putState hp with h | h
  · exact ⟨a, by simp [h], by simp [h, ha]⟩
  · exact hw p h

theorem wellKeyed_delState {st : Store} (hw : WellKeyed st) (k : String) :
    WellKeyed (delState st k) := by
  intro p hp
  exact hw p (List.mem_of_mem_filter hp)

theorem wellKeyed_foldPut {st : Store} (hw : WellKeyed st) (l : List Asset) :
    WellKeyed (foldPut l st) := by
  induction l generalizing st with
  | nil => exact hw
  | cons a rest ih => exact ih (wellKeyed_putState hw rfl)

/-- C9: in every store state reachable from the empty store by the
chaincode's mutating operations, every stored value is the serialization
of an asset whose `ID` field equals the key it is stored under; every
operation preserves this invariant. -/
theorem C9_well_keyed {s₀ : Store} (h : Reach s₀) : WellKeyed s₀ := by
  induction h with
  | empty => intro p hp; simp at hp
  | @init st _ ih =>
      simp only [InitLedger, putAssets_pure]
      exact wellKeyed_foldPut ih initAssets
  | @create st id dealerID msisdn mpin balance status transAmount transType remarks _ ih =>
      cases hx : getState st id with
      | some b =>
          have heq : CreateAsset (pureStub st) id dealerID msisdn mpin balance status
              transAmount transType remarks =
              (some ("the asset " ++ id ++ " already exists"), pureStub st) := by
            simp [CreateAsset, AssetExists, FStub.GetState, pureStub, hx]
          rw [heq]
          exact ih
      | none =>
          have heq : CreateAsset (pureStub st) id dealerID msisdn mpin balance status
              transAmount transType remarks =
              (none, pureStub (putState st id (marshalAsset ⟨balance, dealerID, id,
                mpin, msisdn, remarks, status, transAmount, transType⟩))) := by
            simp [CreateAsset, AssetExists, FStub.GetState, FStub.PutState, pureStub, hx]
          rw [heq]
          exact wellKeyed_putState ih rfl
  | @update st id dealerID msisdn mpin balance status transAmount transType remarks _ ih =>
      cases hx : getState st id with
      | none =>
          have heq : UpdateAsset (pureStub st) id dealerID msisdn mpin balance status
              transAmount transType remarks =
              (some ("the asset " ++ id ++ " does not exist"), pureStub st) := by
            simp [UpdateAsset, AssetExists, FStub.GetState, pureStub, hx]
          rw [heq]
          exact ih
      | some b =>
          have heq : UpdateAsset (pureStub st) id dealerID msisdn mpin balance status
              transAmount transType remarks =
              (none, pureStub (putState st id (marshalAsset ⟨balance, dealerID, id,
                mpin, msisdn, remarks, status, transAmount, transType⟩))) := by
            simp [UpdateAsset, AssetExists, FStub.GetState, FStub.PutState, pureStub, hx]
          rw [heq]
          exact wellKeyed_putState ih rfl
  | @del st id _ ih =>
      cases hx : getState st id with
      | none =>
          have heq : DeleteAsset (pureStub st) id =
              (some ("the asset " ++ id ++ " does not exist"), pureStub st) := by
            simp [DeleteAsset, AssetExists, FStub.GetState, pureStub, hx]
          rw [heq]
          exact ih
      | some b =>
          have heq : DeleteAsset (pureStub st) id =
              (none, pureStub (delState st id)) := by
            simp [DeleteAsset, AssetExists, FStub.GetState, FStub.DelState, pureStub, hx]
          rw [heq]
          exact wellKeyed_delState ih id
  | @transfer st id newDealerID _ ih =>
      cases hx : getState st id with
      | none =>
          have heq : TransferAsset (pureStub st) id newDealerID =
              (("", some ("the asset " ++ id ++ " does not exist")), pureStub st) := by
            simp [TransferAsset, ReadAsset, FStub.GetState, pureStub, hx]
          rw [heq]
          exact ih
      | some b =>
          obtain ⟨a₀, hb, hid⟩ := ih (id, b) (getState_mem hx)
          simp only at hb hid
          subst hb
          have heq : TransferAsset (pureStub st) id newDealerID =
              ((a₀.DEALERID, none), pureStub (putState st id
                (marshalAsset { a₀ with DEALERID := newDealerID }))) := by
            simp [TransferAsset, ReadAsset, FStub.GetState, FStub.PutState, pureStub, hx,
              unmarshal_marshal]
          rw [heq]
          exact wellKeyed_putState ih (by simpa using hid)

/-- Witness for C9: the store after one concrete create is well-keyed. -/
theorem C9_witness :
    WellKeyed (CreateAsset (pureStub []) "a1" "DEALER1" "111" "1111" 7 "ACTIVE" 3
      "CREDIT" "one").2.store :=
  C9_well_keyed
    (Reach.create "a1" "DEALER1" "111" "1111" 7 "ACTIVE" 3 "CREDIT" "one" Reach.empty)

theorem insertEntry_perm (p : String × Bytes) (l : List (String × Bytes)) :
    (insertEntry p l).Perm (p :: l) := by
  induction l with
  | nil => exact List.Perm.refl _
  | cons q rest ih =>
      by_cases h : p.1 < q.1
      · simp only [insertEntry, if_pos h]
        exact List.Perm.refl _
      · simp only [insertEntry, if_neg h]
        exact (ih.cons q).trans (List.Perm.swap p q rest)

theorem rangeAll_perm (st : Store) : (rangeAll st).Perm st := by
  induction st with
  | nil => exact List.Perm.refl _
  | cons p rest ih =>
      exact (insertEntry_perm p (rangeAll rest)).trans (ih.cons p)

theorem decodeEntry_entryOf (c : CArgs) : decodeEntry (entryOf c) = c.toAsset := by
  simp [decodeEntry, entryOf, unmarshal_marshal]

theorem collectAssets_ok {l : List (String × Bytes)}
    (h : ∀ p ∈ l, ∃ a : Asset, unmarshalAsset p.2 = .ok a) :
    collectAssets l = .ok (l.map decodeEntry) := by
  induction l with
  | nil => rfl
  | cons p rest ih =>
      obtain ⟨a, ha⟩ := h p (List.mem_cons_self _ _)
      have hrest := ih (fun q hq => h q (List.mem_cons_of_mem _ hq))
      simp [collectAssets, ha, hrest, decodeEntry]

theorem getState_append_of_none {st₁ : Store} {k : String}
    (h : getState st₁ k = none) (st₂ : Store) :
    getState (st₁ ++ st₂) k = getState st₂ k := by
  induction st₁ with
  | nil => rfl
  | cons q rest ih =>
      by_cases hq : q.1 = k
      · simp [getState, hq] at h
      · simp only [getState, beq_iff_eq, if_neg hq] at h
        simp only [List.cons_append, getState, beq_iff_eq, if_neg hq]
        exact ih h

theorem createAll_cons_ok {s s' : FStub} {c : CArgs} {rest : List CArgs}
    (h : CreateAsset s c.id c.dealerID c.msisdn c.mpin c.balance c.status
      c.transAmount c.transType c.remarks = (none, s')) :
    createAll s (c :: rest) = createAll s' rest := by
  simp [createAll, h]

theorem createAll_pure {xs : List CArgs} : ∀ st : Store,
    (∀ c ∈ xs, getState st c.id = none) → (xs.map CArgs.id).Nodup →
    createAll (pureStub st) xs = (none, pureStub (st ++ xs.map entryOf)) := by
  induction xs with
  | nil => intro st _ _; simp [createAll]
  | cons c rest ih =>
      intro st habs hnd
      simp only [List.map_cons, List.nodup_cons] at hnd
      have hc : getState st c.id = none := habs c (List.mem_cons_self _ _)
      have hcreate : CreateAsset (pureStub st) c.id c.dealerID c.msisdn c.mpin c.balance
          c.status c.transAmount c.transType c.remarks =
          (none, pureStub (putState st c.id (marshalAsset c.toAsset))) := by
        simp [CreateAsset, AssetExists, FStub.GetState, FStub.PutState, pureStub, hc,
          CArgs.toAsset]
      rw [createAll_cons_ok hcreate, putState_absent _ hc]
      have habs' : ∀ c' ∈ rest, getState (st ++ [entryOf c]) c'.id = none := by
        intro c' hc'
        have h2 : c'.id ≠ c.id := by
          intro he
          exact hnd.1 (by rw [← he]; exact List.mem_map_of_mem CArgs.id hc')
        rw [getState_append_of_none (habs c' (List.mem_cons_of_mem _ hc'))]
        simp [getState, entryOf, Ne.symm h2]
      simpa [entryOf, List.append_assoc] using ih (st ++ [entryOf c]) habs' hnd.2

theorem getState_map_entryOf {xs : List CArgs} {d : CArgs} (hd : d ∈ xs)
    (hnd : (xs.map CArgs.id).Nodup) :
    getState (xs.map entryOf) d.id = some (marshalAsset d.toAsset) := by
  induction xs with
  | nil => simp at hd
  | cons c rest ih =>
      simp only [List.map_cons, List.nodup_cons] at hnd
      rcases List.mem_cons.mp hd with h | h
      · subst h
        simp [getState, entryOf]
      · have hne : c.id ≠ d.id := by
          intro he
          exact hnd.1 (by rw [he]; exact List.mem_map_of_mem CArgs.id h)
        simp only [List.map_cons, getState, entryOf, beq_iff_eq, if_neg hne]
        exact ih h hnd.2

theorem delState_map_entryOf (xs : List CArgs) (k : String) :
    delState (xs.map entryOf) k =
      (xs.filter (fun c => !(c.id == k))).map entryOf := by
  induction xs with
  | nil => rfl
  | cons c rest ih =>
      simp only [List.map_cons, delState, List.filter_cons] at ih ⊢
      by_cases hc : c.id = k
      · simp [entryOf, hc, ih]
      · simp [entryOf, hc, ih]

theorem deleteAsset_pure {st : Store} {k : String} {b : Bytes}
    (h : getState st k = some b) :
    DeleteAsset (pureStub st) k = (none, pureStub (delState st k)) := by
  simp [DeleteAsset, AssetExists, FStub.GetState, FStub.DelState, pureStub, h]

theorem decode_entryOf {xs : List CArgs} :
    ∀ p ∈ xs.map entryOf, ∃ a : Asset, unmarshalAsset p.2 = .ok a := by
  intro p hp
  obtain ⟨c, _, rfl⟩ := List.mem_map.mp hp
  exact ⟨c.toAsset, unmarshal_marshal _⟩

theorem map_decodeEntry_entryOf (xs : List CArgs) :
    (xs.map entryOf).map decodeEntry = xs.map CArgs.toAsset := by
  rw [List.map_map]
  exact List.map_congr_left (fun c _ => decodeEntry_entryOf c)

theorem getAllAssets_map_entryOf (xs : List CArgs) :
    ∃ l : List Asset,
      GetAllAssets (pureStub (xs.map entryOf)) = .ok l ∧
      l.Perm (xs.map CArgs.toAsset) := by
  refine ⟨(rangeAll (xs.map entryOf)).map decodeEntry, ?_, ?_⟩
  · exact collectAssets_ok (fun p hp =>
      decode_entryOf p ((rangeAll_perm (xs.map entryOf)).mem_iff.mp hp))
  · rw [← map_decodeEntry_entryOf]
    exact (rangeAll_perm (xs.map entryOf)).map decodeEntry

theorem filter_length_of_mem {xs : List CArgs} {d : CArgs} (hd : d ∈ xs)
    (hnd : (xs.map CArgs.id).Nodup) :
    (xs.filter (fun c => !(c.id == d.id))).length + 1 = xs.length := by
  induction xs with
  | nil => simp at hd
  | cons c rest ih =>
      simp only [List.map_cons, List.nodup_cons] at hnd
      rcases List.mem_cons.mp hd with h | h
      · subst h
        have hall : rest.filter (fun c' => !(c'.id == d.id)) = rest := by
          apply List.filter_eq_self.mpr
          intro c' hc'
          simp only [Bool.not_eq_eq_eq_not, Bool.not_true, beq_eq_false_iff_ne, ne_eq]
          intro he
          exact hnd.1 (by rw [← he]; exact List.mem_map_of_mem CArgs.id hc')
        simp [List.filter_cons, hall]
      · have hne : c.id ≠ d.id := by
          intro he
          exact hnd.1 (by rw [he]; exact List.mem_map_of_mem CArgs.id h)
        have hcons : List.filter (fun c' => !(c'.id == d.id)) (c :: rest) =
            c :: List.filter (fun c' => !(c'.id == d.id)) rest := by
          simp [List.filter_cons, hne]
        rw [hcons]
        have := ih h hnd.2
        simp only [List.length_cons]
        omega

/-- C7: from the empty store, N `CreateAsset` calls with pairwise-distinct
ids all succeed and `GetAllAssets` then returns exactly the N created
records (a permutation of them — no duplicates, no omissions); after
deleting one of the ids, `GetAllAssets` returns exactly the other N−1
records. -/
theorem C7_create_list_delete (xs : List CArgs) (hnd : (xs.map CArgs.id).Nodup)
    (d : CArgs) (hd : d ∈ xs) :
    ∃ (sN sD : FStub) (l l' : List Asset),
      createAll (pureStub []) xs = (none, sN) ∧
      GetAllAssets sN = .ok l ∧
      l.Perm (xs.map CArgs.toAsset) ∧
      l.length = xs.length ∧
      DeleteAsset sN d.id = (none, sD) ∧
      GetAllAssets sD = .ok l' ∧
      l'.Perm ((xs.filter (fun c => !(c.id == d.id))).map CArgs.toAsset) ∧
      l'.length + 1 = xs.length := by
  obtain ⟨l, hl, hlp⟩ := getAllAssets_map_entryOf xs
  obtain ⟨l', hl', hlp'⟩ := getAllAssets_map_entryOf (xs.filter (fun c => !(c.id == d.id)))
  refine ⟨pureStub (xs.map entryOf),
    pureStub ((xs.filter (fun c => !(c.id == d.id))).map entryOf), l, l', ?_, hl, hlp, ?_,
    ?_, hl', hlp', ?_⟩
  · have := @createAll_pure xs [] (fun c _ => rfl) hnd
    simpa using this
  · rw [hlp.length_eq, List.length_map]
  · rw [← delState_map_entryOf]
    exact deleteAsset_pure (getState_map_entryOf hd hnd)
  · rw [hlp'.length_eq, List.length_map]
    exact filter_length_of_mem hd hnd

/-- Witness for C7 with two concrete creates and one delete. -/
theorem C7_witness :
    ∃ (sN sD : FStub) (l l' : List Asset),
      createAll (pureStub []) [c1, c2] = (none, sN) ∧
      GetAllAssets sN = .ok l ∧
      l.Perm ([c1, c2].map CArgs.toAsset) ∧
      l.length = ([c1, c2] : List CArgs).length ∧
      DeleteAsset sN c1.id = (none, sD) ∧
      GetAllAssets sD = .ok l' ∧
      l'.Perm (([c1, c2].filter (fun c => !(c.id == c1.id))).map CArgs.toAsset) ∧
      l'.length + 1 = ([c1, c2] : List CArgs).length :=
  C7_create_list_delete [c1, c2] (by decide) c1 (by decide)

end AssetChaincode
